import Mathlib

/-!
Shallow embedding of the Flashbots bundle provider (`src/index.ts`, the
ethers-v6 `FlashbotsBundleProvider` class) in Lean 4, together with theorems
checking the natural-language specification against the code.

External collaborators (the chain node, the relay transport, signing
primitives) are passed in as explicit function parameters: the embedded
functions are the pure decision logic of the TypeScript source, with every
network/crypto call replaced by an oracle argument.
-/

/-! ## Inclusion watcher (`waitForBundleInclusion`) -/

/-- `FlashbotsBundleResolution` enum from the source. -/
inductive FlashbotsBundleResolution
  | BundleIncluded
  | BlockPassedWithoutInclusion
  | AccountNonceTooHigh
deriving DecidableEq, Repr

/-- `TransactionAccountNonce` interface: metadata recovered from one signed
bundle transaction. -/
structure TransactionAccountNonce where
  hash : String
  signedTransaction : String
  account : String
  nonce : Nat
deriving DecidableEq, Repr

/-- Lookup in an association list, modelling JS object property access
`acc[key]` (`undefined` becomes `none`). -/
def alistLookup (l : List (String × Nat)) (k : String) : Option Nat :=
  match l with
  | [] => none
  | (a, v) :: rest => if a = k then some v else alistLookup rest k

/-- JS object property assignment `acc[key] = v`: overwrite if present,
append otherwise (insertion order preserved, as for JS string keys). -/
def alistSet (l : List (String × Nat)) (k : String) (v : Nat) : List (String × Nat) :=
  match l with
  | [] => [(k, v)]
  | (a, w) :: rest => if a = k then (a, v) :: rest else (a, w) :: alistSet rest k v

/-- One step of the `minimumNonceByAccount` reducer in
`waitForBundleInclusion`: entries with a positive nonce record the smallest
nonce seen per account (`!acc[account]` is the absent-key test, since only
positive values are ever stored). -/
def minNonceStep (acc : List (String × Nat)) (accountNonce : TransactionAccountNonce) :
    List (String × Nat) :=
  if accountNonce.nonce > 0 then
    match alistLookup acc accountNonce.account with
    | none => alistSet acc accountNonce.account accountNonce.nonce
    | some m =>
        if accountNonce.nonce < m then alistSet acc accountNonce.account accountNonce.nonce
        else acc
  else acc

/-- `minimumNonceByAccount`: the reduce over the bundle's
`TransactionAccountNonce` list. -/
def minimumNonceByAccount (transactionAccountNonces : List TransactionAccountNonce) :
    List (String × Nat) :=
  transactionAccountNonces.foldl minNonceStep []

/-- Result of one invocation of the watcher's block `handler`. `pending`
is the early `return` (no resolution), `getBlockFault` the
`Unable to get block` throw. -/
inductive HandlerResult
  | pending
  | resolved (r : FlashbotsBundleResolution)
  | getBlockFault
deriving DecidableEq, Repr

/-- The body of the `handler` closure in `waitForBundleInclusion`, for a
single delivered block number.  `getTransactionCount` and `getBlock` are the
chain-node oracles (`getBlock n = none` models a `null` block). -/
def handlerStep (transactionAccountNonces : List TransactionAccountNonce)
    (targetBlockNumber : Nat) (getTransactionCount : String → Nat)
    (getBlock : Nat → Option (List String)) (blockNumber : Nat) : HandlerResult :=
  if blockNumber < targetBlockNumber then
    let allNoncesValid :=
      (minimumNonceByAccount transactionAccountNonces).all
        (fun p => getTransactionCount p.1 ≤ p.2)
    if allNoncesValid then .pending
    else .resolved .AccountNonceTooHigh
  else
    match getBlock targetBlockNumber with
    | none => .getBlockFault
    | some blockTransactions =>
        let bundleIncluded :=
          transactionAccountNonces.all (fun transaction => blockTransactions.contains transaction.hash)
        if bundleIncluded then .resolved .BundleIncluded
        else .resolved .BlockPassedWithoutInclusion

/-- The positive nonces submitted for account `a`, in bundle order
(specification-side description used to characterise
`minimumNonceByAccount`). -/
def posNonces (transactionAccountNonces : List TransactionAccountNonce) (a : String) :
    List Nat :=
  (transactionAccountNonces.filter (fun t => t.account = a ∧ t.nonce > 0)).map (·.nonce)

/-! ### Watcher promise lifecycle (`waitForBundleInclusion` as a state machine)

The promise body is event-driven: block notifications and the timeout timer.
The spec's concurrency model (§5) is single-threaded and cooperative, so each
event is processed atomically. -/

/-- Terminal outcome of the `wait` promise: a resolution, or the
`reject('Timed out')`. -/
inductive WaitOutcome
  | resolvedWith (r : FlashbotsBundleResolution)
  | timedOut
deriving DecidableEq, Repr

/-- Mutable state of one `waitForBundleInclusion` promise body: the `done`
flag, whether the timer is live, whether the block listener is attached,
the promise's settled value (a promise settles at most once), and how many
times `removeListener` has been invoked. -/
structure WaitState where
  done : Bool
  timerOn : Bool
  listenerOn : Bool
  outcome : Option WaitOutcome
  removeCalls : Nat
deriving DecidableEq, Repr

/-- Events delivered to the promise body. -/
inductive WaitEvent
  | block (blockNumber : Nat)
  | timeoutFires
deriving DecidableEq, Repr

/-- Settling a promise is idempotent: only the first `resolve`/`reject`
takes effect. -/
def settle (s : WaitState) (o : WaitOutcome) : WaitState :=
  match s.outcome with
  | some _ => s
  | none => { s with outcome := some o }

/-- Static configuration of one wait. -/
structure WaitConfig where
  transactionAccountNonces : List TransactionAccountNonce
  targetBlockNumber : Nat
  getTransactionCount : String → Nat
  getBlock : Nat → Option (List String)

/-- One event step of the `waitForBundleInclusion` promise body, translated
from the source: a block event runs `handler` (only if the listener is still
attached); the timeout callback checks `done`, tears down, then rejects. -/
def stepEvent (cfg : WaitConfig) (s : WaitState) : WaitEvent → WaitState
  | .block b =>
      if s.listenerOn then
        match handlerStep cfg.transactionAccountNonces cfg.targetBlockNumber
            cfg.getTransactionCount cfg.getBlock b with
        | .pending => s
        | .getBlockFault => s
        | .resolved r =>
            let s1 := settle s (.resolvedWith r)
            let s2 := { s1 with timerOn := false }
            if s2.done then s2
            else { s2 with done := true, listenerOn := false, removeCalls := s2.removeCalls + 1 }
      else s
  | .timeoutFires =>
      if s.timerOn then
        let s1 := { s with timerOn := false }
        if s1.done then s1
        else
          let s2 := { s1 with done := true, listenerOn := false, removeCalls := s1.removeCalls + 1 }
          settle s2 .timedOut
      else s

/-- Initial state of a wait: listener attached, timer armed when the timeout
is positive, nothing resolved. -/
def initWaitState (timeout : Nat) : WaitState :=
  { done := false, timerOn := 0 < timeout, listenerOn := true, outcome := none, removeCalls := 0 }

/-- Run the promise body over a sequence of delivered events. -/
def runWait (cfg : WaitConfig) (timeout : Nat) (events : List WaitEvent) : WaitState :=
  events.foldl (stepEvent cfg) (initWaitState timeout)

/-! ## Sanity checks of the watcher model on concrete inputs -/

example :
    handlerStep [⟨"h1", "s1", "0xa", 5⟩] 10 (fun _ => 6) (fun _ => some []) 7 =
      .resolved .AccountNonceTooHigh := by decide

example :
    handlerStep [⟨"h1", "s1", "0xa", 5⟩] 10 (fun _ => 5) (fun _ => some []) 7 =
      .pending := by decide

example :
    handlerStep [⟨"h1", "s1", "0xa", 5⟩] 10 (fun _ => 99) (fun _ => some ["x", "h1"]) 10 =
      .resolved .BundleIncluded := by decide

example :
    handlerStep [⟨"h1", "s1", "0xa", 5⟩] 10 (fun _ => 99) (fun _ => some ["x"]) 11 =
      .resolved .BlockPassedWithoutInclusion := by decide

example :
    minimumNonceByAccount [⟨"h1", "s1", "0xa", 5⟩, ⟨"h2", "s2", "0xa", 3⟩, ⟨"h3", "s3", "0xb", 0⟩] =
      [("0xa", 3)] := by decide

/-! ## Bundle signer (`signBundle`) -/

/-- The `nonce` field of a `TransactionRequest`: JS distinguishes a missing
field (`undefined`), an explicit `null`, a number, and a string. -/
inductive NonceField
  | undefinedNonce
  | null
  | num (n : Nat)
  | str (s : String)
deriving DecidableEq, Repr

/-- The fields of a `TransactionRequest` that `signBundle` reads or writes.
`none` models an `undefined` field. -/
structure TransactionIntent where
  nonce : NonceField := .undefinedNonce
  gasPrice : Option Int := none
  gasLimit : Option Int := none
  type : Option Nat := none
deriving DecidableEq, Repr

/-- The result of `Transaction.from` on a raw signed transaction: the
recovered sender (possibly `null`) and the nonce. -/
structure ParsedTransaction where
  fromAddr : Option String
  nonce : Nat
deriving DecidableEq, Repr

/-- An ethers `Signer` as `signBundle` uses it: an address plus
`signTransaction`/`estimateGas` oracles. -/
structure SignerModel where
  address : String
  signTransaction : TransactionIntent → String
  estimateGas : TransactionIntent → Int

/-- `FlashbotsBundleRawTransaction | FlashbotsBundleTransaction` union. -/
inductive BundleItem
  | raw (signedTransaction : String)
  | tx (transaction : TransactionIntent) (signer : SignerModel)

/-- `typeof transaction.nonce === 'string'`. -/
def isStringNonce : NonceField → Bool
  | .str _ => true
  | _ => false

/-- The field updates `signBundle` applies to an unsigned transaction after
resolving `nonce`: write the nonce back only when the field was `undefined`
(the guard `transaction.nonce === undefined && transaction.nonce !== null`),
default a legacy gas price to `0n`, then default the gas limit via the
signer's estimator. -/
def prepareTx (transaction : TransactionIntent) (signer : SignerModel) (nonce : Nat) :
    TransactionIntent :=
  let t1 := if transaction.nonce = .undefinedNonce then { transaction with nonce := .num nonce }
            else transaction
  let t2 := if (t1.type = none ∨ t1.type = some 0) ∧ t1.gasPrice = none
            then { t1 with gasPrice := some 0 } else t1
  if t2.gasLimit = none then { t2 with gasLimit := some (signer.estimateGas t2) } else t2

/-- One produced bundle entry: the raw signed string that `signBundle`
pushes, instrumented with the account it is for and the nonce recorded in
the per-call map (for a raw item, the parsed `{from, nonce}`; for an
unsigned item, the signer address and the resolved nonce). -/
structure SignedEntry where
  signedTransaction : String
  account : String
  nonce : Nat
deriving DecidableEq, Repr

/-- The loop of `signBundle`, carrying the per-call `nonces` map.
`parseTransaction s = none` models `Transaction.from` failing; a parse whose
`from` is `undefined`/`null` raises `Could not decode signed transaction`;
a string nonce raises `Bad nonce`.  For an unsigned item the nonce is the
explicit numeric field if set, else `nonces[address] ?? getTransactionCount(address)`;
the map is then advanced to the used nonce plus one. -/
def signBundleGo (parseTransaction : String → Option ParsedTransaction)
    (getTransactionCount : String → Nat) :
    List BundleItem → List (String × Nat) → Except String (List SignedEntry)
  | [], _ => .ok []
  | .raw s :: rest, nonces =>
      match parseTransaction s with
      | none => .error "Could not decode signed transaction"
      | some transactionDetails =>
          match transactionDetails.fromAddr with
          | none => .error "Could not decode signed transaction"
          | some a =>
              (signBundleGo parseTransaction getTransactionCount rest
                  (alistSet nonces a (transactionDetails.nonce + 1))).map
                (⟨s, a, transactionDetails.nonce⟩ :: ·)
  | .tx transaction signer :: rest, nonces =>
      if isStringNonce transaction.nonce then .error "Bad nonce"
      else
        let address := signer.address
        let nonce : Nat :=
          match transaction.nonce with
          | .num n => n
          | _ => (alistLookup nonces address).getD (getTransactionCount address)
        let nonces' := alistSet nonces address (nonce + 1)
        (signBundleGo parseTransaction getTransactionCount rest nonces').map
          (⟨signer.signTransaction (prepareTx transaction signer nonce), address, nonce⟩ :: ·)

/-- `signBundle`: the public method.  The source returns the list of raw
signed strings; the instrumented entries are projected to that list. -/
def signBundle (parseTransaction : String → Option ParsedTransaction)
    (getTransactionCount : String → Nat) (bundledTransactions : List BundleItem) :
    Except String (List String) :=
  (signBundleGo parseTransaction getTransactionCount bundledTransactions []).map
    (·.map (·.signedTransaction))

/-- The instrumented `(account, nonce)` trace of `signBundle`, in output
order. -/
def signBundleNonces (parseTransaction : String → Option ParsedTransaction)
    (getTransactionCount : String → Nat) (bundledTransactions : List BundleItem) :
    Except String (List (String × Nat)) :=
  (signBundleGo parseTransaction getTransactionCount bundledTransactions []).map
    (·.map (fun e => (e.account, e.nonce)))

/-! ### Sanity checks of the signer model -/

/-- A toy signer for account `0xa` whose signatures record the nonce field,
so parsed entries can be reconstructed. -/
def toySigner (addr : String) : SignerModel :=
  { address := addr
    signTransaction := fun t =>
      match t.nonce with
      | .num n => "signed:" ++ addr ++ ":" ++ toString n
      | .null => "signed:" ++ addr ++ ":null"
      | _ => "signed:" ++ addr ++ ":?"
    estimateGas := fun _ => 21000 }

example :
    signBundleNonces (fun _ => none) (fun _ => 5)
      [.tx {} (toySigner "0xa"), .tx {} (toySigner "0xa")] =
      .ok [("0xa", 5), ("0xa", 6)] := rfl

example :
    signBundle (fun _ => none) (fun _ => 5) [.tx {} (toySigner "0xa")] =
      .ok ["signed:0xa:5"] := rfl

/-! ## Fee projector (`getBaseFeeInNextBlock`) -/

/-- `BASE_FEE_MAX_CHANGE_DENOMINATOR = 8n`. -/
def BASE_FEE_MAX_CHANGE_DENOMINATOR : Int := 8

/-- JS `bigint` division: truncates toward zero, and division by `0n`
throws a `RangeError` (modelled as `none`). -/
def bigintDiv (a b : Int) : Option Int :=
  if b = 0 then none else some (a.tdiv b)

/-- `FlashbotsBundleProvider.getBaseFeeInNextBlock`, translated branch by
branch from the source; `none` is a thrown `RangeError` (division by a zero
gas target). -/
def getBaseFeeInNextBlock (currentBaseFeePerGas currentGasUsed currentGasLimit : Int) :
    Option Int := do
  let currentGasTarget ← bigintDiv currentGasLimit 2
  if currentGasUsed = currentGasTarget then
    pure currentBaseFeePerGas
  else if currentGasUsed > currentGasTarget then
    let gasUsedDelta := currentGasUsed - currentGasTarget
    let d1 ← bigintDiv (currentBaseFeePerGas * gasUsedDelta) currentGasTarget
    let baseFeePerGasDelta ← bigintDiv d1 BASE_FEE_MAX_CHANGE_DENOMINATOR
    pure (currentBaseFeePerGas + baseFeePerGasDelta)
  else
    let gasUsedDelta := currentGasTarget - currentGasUsed
    let d1 ← bigintDiv (currentBaseFeePerGas * gasUsedDelta) currentGasTarget
    let baseFeePerGasDelta ← bigintDiv d1 BASE_FEE_MAX_CHANGE_DENOMINATOR
    pure (currentBaseFeePerGas - baseFeePerGasDelta)

example : getBaseFeeInNextBlock 1000 600 1000 = some 1025 := by decide
example : getBaseFeeInNextBlock 1000 400 1000 = some 975 := by decide
example : getBaseFeeInNextBlock 1000 500 1000 = some 1000 := by decide
example : getBaseFeeInNextBlock 0 1 1 = none := by decide

/-! ## Relay transport and error handling (`request` and the per-operation
error check shared by `sendRawBundle`, `cancelBundles`,
`sendPrivateTransaction`, `cancelPrivateTransaction`, `simulate`,
`getUserStats`/`V2`, `getBundleStats`/`V2`) -/

/-- The `{message, code}` payload of a relay-level rejection. -/
structure RelayErrorPayload where
  message : String
  code : Int
deriving DecidableEq, Repr

/-- A parsed relay JSON-RPC response body: an optional `error` member and an
opaque `result` payload. -/
structure RelayBody where
  error : Option RelayErrorPayload
  result : String
deriving DecidableEq, Repr

/-- An HTTP response as the ethers `FetchResponse` exposes it to `request`:
`statusOk` is `assertOk()` not throwing, `bodyJson = none` models a body
that is not parseable JSON (the `bodyJson` getter throws). -/
structure FetchResponse where
  statusOk : Bool
  statusCode : Nat
  bodyText : String
  bodyJson : Option RelayBody
deriving DecidableEq, Repr

/-- The private `request` method: non-2xx statuses are re-thrown as
`Request failed with status ...`, then the body is parsed as JSON (throwing
if unparsable).  Thrown faults are the `Except.error` branch. -/
def request (resp : FetchResponse) : Except String RelayBody :=
  if resp.statusOk then
    match resp.bodyJson with
    | some body => .ok body
    | none => .error "response body is not JSON"
  else
    .error ("Request failed with status " ++ toString resp.statusCode ++ ": " ++ resp.bodyText)

/-- What one relay operation hands back to its caller: a typed
`RelayResponseError` record, or its typed success payload (kept opaque). -/
inductive RelayCallOutcome
  | errorRecord (message : String) (code : Int)
  | success (result : String)
deriving DecidableEq, Repr

/-- The response handling every relay operation performs after `request`:
`if (response.error !== undefined && response.error !== null) return
{error: {message, code}}` else build the success payload from
`response.result`.  A thrown transport fault propagates. -/
def relayCallOutcome (resp : FetchResponse) : Except String RelayCallOutcome :=
  match request resp with
  | .error e => .error e
  | .ok response =>
      match response.error with
      | some err => .ok (.errorRecord err.message err.code)
      | none => .ok (.success response.result)

example :
    relayCallOutcome ⟨true, 200, "", some ⟨some ⟨"bad bundle", (-32000 : Int)⟩, ""⟩⟩ =
      .ok (.errorRecord "bad bundle" (-32000)) := rfl
example :
    relayCallOutcome ⟨false, 403, "forbidden", none⟩ =
      .error "Request failed with status 403: forbidden" := rfl

/-! ## Conflict diagnoser (`getConflictingBundleWithoutGasPricing`) -/

/-- `FlashbotsBundleConflictType` enum from the source. -/
inductive FlashbotsBundleConflictType
  | NoConflict
  | NonceCollision
  | Error
  | CoinbasePayment
  | GasUsed
  | NoBundlesInBlock
deriving DecidableEq, Repr

/-- The fields of one `TransactionSimulation` that the diagnoser reads:
`error = some _` models the revert variant (the `'error' in txSim` key
test), `ethSentToCoinbase` and `gasUsed` are the compared fields. -/
structure TxSimulation where
  gasUsed : Nat
  ethSentToCoinbase : String
  error : Option String
deriving DecidableEq, Repr

/-- A `SimulationResponseSuccess` restricted to its `results` member (the
only one the diagnoser inspects). -/
structure SimulationSuccess where
  results : List TxSimulation
deriving DecidableEq, Repr

/-- `firstRevert` as `simulate` computes it: the first result carrying a
revert/error. -/
def firstRevert (s : SimulationSuccess) : Option TxSimulation :=
  s.results.find? (fun txSim => txSim.error.isSome)

/-- A `SimulationResponse`: the success payload or a `RelayResponseError`. -/
inductive SimulationResponse
  | ok (s : SimulationSuccess)
  | err (e : RelayErrorPayload)
deriving DecidableEq, Repr

/-- One transaction of the blocks-API payload, restricted to the fields the
diagnoser reads. -/
structure BlocksApiTx where
  transaction_hash : String
  bundle_index : Nat
deriving DecidableEq, Repr

/-- One block of the blocks-API payload. -/
structure BlocksApiBlock where
  transactions : List BlocksApiTx
deriving DecidableEq, Repr

/-- The blocks-API response. -/
structure BlocksApiResponse where
  latest_block_number : Nat
  blocks : List BlocksApiBlock
deriving DecidableEq, Repr

/-- What `getConflictingBundleWithoutGasPricing` produces: a
`FlashbotsBundleConflict` record, or a thrown fault. -/
inductive ConflictOutcome
  | record (conflictType : FlashbotsBundleConflictType)
      (initialSimulation : SimulationSuccess) (conflictingBundle : List BlocksApiTx)
  | fault (msg : String)
deriving DecidableEq, Repr

/-- `Array.prototype.slice(-n)`: for `n > 0` the last `n` elements (the
whole list when it is shorter than `n`); for `n = 0` JS normalizes the index
`-0` to `0`, so `slice(-0)` returns the whole array, not the empty slice. -/
def takeLast (n : Nat) (l : List TxSimulation) : List TxSimulation :=
  if n = 0 then l else l.drop (l.length - n)

example : takeLast 0 [⟨21000, "0", none⟩] = [⟨21000, "0", none⟩] := rfl

example : takeLast 1 [⟨1, "a", none⟩, ⟨2, "b", none⟩] = [⟨2, "b", none⟩] := rfl

/-- Divergence found when comparing one target-slice transaction against the
same position of the initial simulation. -/
inductive DivergenceKind
  | errorKind
  | coinbaseKind
  | gasKind
deriving DecidableEq, Repr

/-- Result of the inner `for j` comparison loop. -/
inductive SliceCompare
  | clean
  | indexFault
  | div (k : DivergenceKind)
deriving DecidableEq, Repr

/-- The body of the inner loop for one index `j`: exactly one side erroring
is an `Error` divergence, both erroring is skipped, otherwise the coinbase
payment then the gas used are compared. -/
def compareTxPair (targetSimulationTx initialSimulationTx : TxSimulation) :
    Option DivergenceKind :=
  if targetSimulationTx.error.isSome ∨ initialSimulationTx.error.isSome then
    if targetSimulationTx.error.isSome ≠ initialSimulationTx.error.isSome then
      some .errorKind
    else none
  else if targetSimulationTx.ethSentToCoinbase ≠ initialSimulationTx.ethSentToCoinbase then
    some .coinbaseKind
  else if targetSimulationTx.gasUsed ≠ initialSimulationTx.gasUsed then
    some .gasKind
  else none

/-- The inner `for j` loop: walk the target slice against the positionally
matching initial results, returning the first divergence.  Running past the
end of `initialSimulation.results` is the JS `undefined` property access
fault. -/
def compareTargetSlice : List TxSimulation → List TxSimulation → SliceCompare
  | [], _ => .clean
  | _ :: _, [] => .indexFault
  | t :: ts, i :: is =>
      match compareTxPair t i with
      | some d => .div d
      | none => compareTargetSlice ts is

/-- `err: nonce too low:` test on a combined-simulation error message. -/
def isNonceTooLow (message : String) : Bool :=
  message.startsWith "err: nonce too low:"

/-- Fetch and re-serialize the raw transactions of one competitor bundle
(`getTransaction` + `Transaction.from(tx).serialized`); any missing
transaction is the `Could not get raw tx` throw. -/
def fetchRaws (getRawTx : String → Option String) :
    List BlocksApiTx → Option (List String)
  | [] => some []
  | t :: ts =>
      match getRawTx t.transaction_hash with
      | none => none
      | some r => (fetchRaws getRawTx ts).map (r :: ·)

/-- One iteration of the `for currentBundleId` replay loop: extend the
accumulated prior-bundle prefix with bundle `k`'s raw transactions,
re-simulate `prior ++ target`, and classify.  `Except.error` terminates the
whole diagnosis with that outcome; `Except.ok` carries the extended prefix
to the next iteration. -/
def conflictStep (simulate : List String → SimulationResponse)
    (initialSimulation : SimulationSuccess) (targetTxs : List String)
    (getRawTx : String → Option String) (bundleTransactions : List BlocksApiTx)
    (k : Nat) (signedPriorBundleTransactions : List String) :
    Except ConflictOutcome (List String) :=
  let currentBundleTransactions :=
    bundleTransactions.filter (fun bundleTransaction => bundleTransaction.bundle_index = k)
  match fetchRaws getRawTx currentBundleTransactions with
  | none => .error (.fault "Could not get raw tx")
  | some currentBundleSignedTxs =>
      let prior := signedPriorBundleTransactions ++ currentBundleSignedTxs
      match simulate (prior ++ targetTxs) with
      | .err e =>
          if isNonceTooLow e.message then
            .error (.record .NonceCollision initialSimulation currentBundleTransactions)
          else .error (.fault "Simulation error")
      | .ok sim =>
          match compareTargetSlice (takeLast targetTxs.length sim.results)
              initialSimulation.results with
          | .clean => .ok prior
          | .indexFault => .error (.fault "TypeError")
          | .div .errorKind =>
              .error (.record .Error initialSimulation currentBundleTransactions)
          | .div .coinbaseKind =>
              .error (.record .CoinbasePayment initialSimulation currentBundleTransactions)
          | .div .gasKind =>
              .error (.record .GasUsed initialSimulation currentBundleTransactions)

/-- The replay loop over the remaining bundle indices. -/
def conflictLoop (simulate : List String → SimulationResponse)
    (initialSimulation : SimulationSuccess) (targetTxs : List String)
    (getRawTx : String → Option String) (bundleTransactions : List BlocksApiTx) :
    List Nat → List String → ConflictOutcome
  | [], _ => .record .NoConflict initialSimulation []
  | k :: ks, prior =>
      match conflictStep simulate initialSimulation targetTxs getRawTx bundleTransactions
          k prior with
      | .error o => o
      | .ok prior' =>
          conflictLoop simulate initialSimulation targetTxs getRawTx bundleTransactions ks prior'

/-- `getConflictingBundleWithoutGasPricing`: preconditions, the no-bundles
case, then the replay loop over bundle indices `0 .. last.bundle_index`.
`simulate` is the oracle for `this.simulate(txs, targetBlockNumber,
targetBlockNumber - 1)`; its argument is the simulated transaction list. -/
def getConflictingBundleWithoutGasPricing (simulate : List String → SimulationResponse)
    (blocksApi : BlocksApiResponse) (getRawTx : String → Option String)
    (targetSignedBundledTransactions : List String) (targetBlockNumber : Nat) :
    ConflictOutcome :=
  let initialSimulation := simulate targetSignedBundledTransactions
  if blocksApi.latest_block_number ≤ targetBlockNumber then
    .fault "Blocks-api has not processed target block"
  else
    match initialSimulation with
    | .err _ => .fault "Target bundle errors at top of block"
    | .ok initial =>
        if (firstRevert initial).isSome then .fault "Target bundle errors at top of block"
        else
          match blocksApi.blocks.head? with
          | none => .record .NoBundlesInBlock initial []
          | some blockDetails =>
              let bundleTransactions := blockDetails.transactions
              match bundleTransactions.getLast? with
              | none => .fault "TypeError"
              | some lastTx =>
                  conflictLoop simulate initial targetSignedBundledTransactions getRawTx
                    bundleTransactions (List.range (lastTx.bundle_index + 1)) []

/-- An empty target bundle makes `slice(-0)` take the whole combined
results, so the comparison runs past `initialSimulation.results` and the
source throws a `TypeError` reading a property of `undefined`. -/
example :
    getConflictingBundleWithoutGasPricing
        (fun txs => if txs = [] then .ok ⟨[]⟩ else .ok ⟨[⟨30000, "0", none⟩]⟩)
        ⟨10, [⟨[⟨"h1", 0⟩]⟩]⟩ (fun _ => some "r1") [] 5 =
      .fault "TypeError" := rfl

/-! ## Claim C8: `getBaseFeeInNextBlock` arithmetic -/

/-- C8 counterexample: the claim quantifies over all non-negative inputs,
but at `gasLimit = 1` the gas target is `0` and the source divides by the
zero target (`RangeError` on bigints), returning nothing at all — here at
`(b, gasUsed, gasLimit) = (0, 1, 1)`. -/
theorem claim_C8_counterexample : getBaseFeeInNextBlock 0 1 1 = none := by decide

/-- C8 (amended): for non-negative `b`, `gasUsed` and `gasLimit ≥ 2` (so the
gas target `gasLimit/2` is positive and no division by zero occurs),
`getBaseFeeInNextBlock` returns `b` unchanged at the target, increases by
`b*(gasUsed-target)/target/8` above it and decreases by the symmetric
amount below it, every division truncating toward zero; and
`getBaseFeeInNextBlock b (limit/2) limit = b` for every even non-negative
`limit`. -/
theorem claim_C8_nextBaseFee (b used limit : Int) (_hb : 0 ≤ b) (_hu : 0 ≤ used)
    (hl : 2 ≤ limit) :
    (getBaseFeeInNextBlock b used limit =
      some (if used = limit.tdiv 2 then b
            else if used > limit.tdiv 2 then
              b + ((b * (used - limit.tdiv 2)).tdiv (limit.tdiv 2)).tdiv 8
            else b - ((b * (limit.tdiv 2 - used)).tdiv (limit.tdiv 2)).tdiv 8)) ∧
    (∀ b' limit' : Int, 0 ≤ b' → 0 ≤ limit' → 2 ∣ limit' →
      getBaseFeeInNextBlock b' (limit'.tdiv 2) limit' = some b') := by
  have ht : ¬ limit.tdiv 2 = 0 := by
    rw [Int.tdiv_eq_ediv (by omega) (by omega)]
    omega
  constructor
  · by_cases h1 : used = limit.tdiv 2
    · simp [getBaseFeeInNextBlock, bigintDiv, h1, ht]
    · by_cases h2 : used > limit.tdiv 2
      · simp [getBaseFeeInNextBlock, bigintDiv, BASE_FEE_MAX_CHANGE_DENOMINATOR, h1, h2, ht]
      · simp [getBaseFeeInNextBlock, bigintDiv, BASE_FEE_MAX_CHANGE_DENOMINATOR, h1, h2, ht]
  · intro b' limit' _ _ _
    simp [getBaseFeeInNextBlock, bigintDiv]

/-- C8 witness: the amended theorem applied at `(5, 7, 10)` (target `5`,
above-target branch: `5 + (5*2)/5/8 = 5`) and at `(3, 2, 4)` (even limit,
at-target branch). -/
theorem claim_C8_witness :
    getBaseFeeInNextBlock 5 7 10 = some 5 ∧ getBaseFeeInNextBlock 3 2 4 = some 3 := by
  constructor
  · have h := (claim_C8_nextBaseFee 5 7 10 (by decide) (by decide) (by decide)).1
    exact h.trans (by decide)
  · have h := (claim_C8_nextBaseFee 5 7 10 (by decide) (by decide) (by decide)).2
      3 4 (by decide) (by decide) (by decide)
    have he : Int.tdiv 4 2 = 2 := by decide
    rw [he] at h
    exact h

/-! ## Claim C9: relay rejections vs transport faults -/

/-- C9: for the response handling shared by every relay operation
(`sendRawBundle`, `cancelBundles`, `sendPrivateTransaction`, `simulate`,
`getUserStats`, `getBundleStats` and their variants), a non-2xx status or an
unparsable body is a thrown fault; a well-formed body with a relay `error`
member is returned as a typed record carrying the relay's message and code
and is never thrown; a well-formed body without one yields the typed success
payload. -/
theorem claim_C9_relayErrors (resp : FetchResponse) :
    (resp.statusOk = false → ∃ m, relayCallOutcome resp = .error m) ∧
    (resp.statusOk = true → resp.bodyJson = none → ∃ m, relayCallOutcome resp = .error m) ∧
    (∀ body e, resp.statusOk = true → resp.bodyJson = some body → body.error = some e →
      relayCallOutcome resp = .ok (.errorRecord e.message e.code)) ∧
    (∀ body, resp.statusOk = true → resp.bodyJson = some body → body.error = none →
      relayCallOutcome resp = .ok (.success body.result)) ∧
    (∀ body e m, resp.statusOk = true → resp.bodyJson = some body → body.error = some e →
      relayCallOutcome resp ≠ .error m) := by
  refine ⟨?_, ?_, ?_, ?_, ?_⟩
  · intro h
    refine ⟨"Request failed with status " ++ toString resp.statusCode ++ ": " ++ resp.bodyText, ?_⟩
    simp [relayCallOutcome, request, h]
  · intro h hj
    refine ⟨"response body is not JSON", ?_⟩
    simp [relayCallOutcome, request, h, hj]
  · intro body e h hj he
    simp [relayCallOutcome, request, h, hj, he]
  · intro body h hj he
    simp [relayCallOutcome, request, h, hj, he]
  · intro body e m h hj he
    simp [relayCallOutcome, request, h, hj, he]

/-- C9 witness: a 200 response whose body carries a relay rejection is
returned as the typed error record; the hypotheses of the theorem are
discharged at this concrete response. -/
theorem claim_C9_witness :
    relayCallOutcome ⟨true, 200, "", some ⟨some ⟨"bundle rejected", -32000⟩, ""⟩⟩ =
      .ok (.errorRecord "bundle rejected" (-32000)) :=
  (claim_C9_relayErrors _).2.2.1 _ _ rfl rfl rfl

/-! ## Claim C1: target-block inclusion check -/

/-- C1: once a block number `b ≥ targetBlock` is delivered, the handler
fetches the target block's transaction hash list and resolves
`BundleIncluded` iff every bundle entry's hash appears in that list, and
`BlockPassedWithoutInclusion` otherwise. -/
theorem claim_C1_inclusionCheck (entries : List TransactionAccountNonce)
    (targetBlockNumber : Nat) (getTransactionCount : String → Nat)
    (getBlock : Nat → Option (List String)) (b : Nat) (txs : List String)
    (hb : targetBlockNumber ≤ b) (hblock : getBlock targetBlockNumber = some txs) :
    (handlerStep entries targetBlockNumber getTransactionCount getBlock b =
        .resolved .BundleIncluded ↔ ∀ t ∈ entries, t.hash ∈ txs) ∧
    (handlerStep entries targetBlockNumber getTransactionCount getBlock b =
        .resolved .BlockPassedWithoutInclusion ↔ ¬ ∀ t ∈ entries, t.hash ∈ txs) := by
  have hlt : ¬ b < targetBlockNumber := by omega
  constructor
  · rw [handlerStep, if_neg hlt, hblock]
    by_cases hall : ∀ t ∈ entries, t.hash ∈ txs
    · simp only [List.all_eq_true]
      rw [if_pos]
      · simpa using hall
      · simpa [List.elem_iff] using hall
    · simp only [List.all_eq_true]
      rw [if_neg]
      · simpa using hall
      · simpa [List.elem_iff] using hall
  · rw [handlerStep, if_neg hlt, hblock]
    by_cases hall : ∀ t ∈ entries, t.hash ∈ txs
    · simp only [List.all_eq_true]
      rw [if_pos]
      · simpa using hall
      · simpa [List.elem_iff] using hall
    · simp only [List.all_eq_true]
      rw [if_neg]
      · simpa using hall
      · simpa [List.elem_iff] using hall

/-- C1 witness: at target block 10, a delivered block 10 whose transaction
list contains the single entry's hash resolves `BundleIncluded`. -/
theorem claim_C1_witness :
    handlerStep [⟨"h1", "s1", "0xa", 5⟩] 10 (fun _ => 0) (fun _ => some ["x", "h1"]) 10 =
      .resolved .BundleIncluded := by
  have h := (claim_C1_inclusionCheck [⟨"h1", "s1", "0xa", 5⟩] 10 (fun _ => 0)
    (fun _ => some ["x", "h1"]) 10 ["x", "h1"] (by decide) rfl).1
  exact h.mpr (by decide)

/-! ## Claim C2: pre-target nonce-invalidation check -/

/-- Minimum of two optional minima (absent = no elements yet). -/
def combineMin : Option Nat → Option Nat → Option Nat
  | none, y => y
  | some m, none => some m
  | some m, some n => some (min m n)

theorem alistLookup_set_self (l : List (String × Nat)) (k : String) (v : Nat) :
    alistLookup (alistSet l k v) k = some v := by
  induction l with
  | nil => simp [alistSet, alistLookup]
  | cons p rest ih =>
      obtain ⟨a, w⟩ := p
      by_cases h : a = k
      · simp [alistSet, alistLookup, h]
      · simp [alistSet, alistLookup, h, ih]

theorem alistLookup_set_ne (l : List (String × Nat)) (k a : String) (v : Nat) (h : k ≠ a) :
    alistLookup (alistSet l k v) a = alistLookup l a := by
  induction l with
  | nil => simp [alistSet, alistLookup, h]
  | cons p rest ih =>
      obtain ⟨b, w⟩ := p
      by_cases hb : b = k
      · subst hb
        simp [alistSet, alistLookup, h]
      · simp [alistSet, alistLookup, hb, ih]

theorem foldl_min_eq (l : List Nat) (x : Nat) :
    l.foldl min x = match l.min? with | none => x | some m => min x m := by
  induction l generalizing x with
  | nil => simp
  | cons a l ih =>
      rw [List.foldl_cons, ih]
      have hc : (a :: l).min? = some (l.foldl min a) := rfl
      rw [hc, ih]
      cases hl : l.min? with
      | none => rfl
      | some m => simp [Nat.min_assoc]

theorem min?_cons_eq (x : Nat) (l : List Nat) :
    (x :: l).min? = combineMin (some x) l.min? := by
  have hc : (x :: l).min? = some (l.foldl min x) := rfl
  rw [hc, foldl_min_eq]
  cases l.min? <;> rfl

theorem combineMin_assoc (x y z : Option Nat) :
    combineMin (combineMin x y) z = combineMin x (combineMin y z) := by
  cases x <;> cases y <;> cases z <;> simp [combineMin, Nat.min_assoc]

/-- One reducer step changes the stored minimum exactly for the entry's
account, and only when the entry's nonce is positive. -/
theorem lookup_minNonceStep (acc : List (String × Nat)) (t : TransactionAccountNonce)
    (a : String) :
    alistLookup (minNonceStep acc t) a =
      if t.account = a ∧ t.nonce > 0 then combineMin (alistLookup acc a) (some t.nonce)
      else alistLookup acc a := by
  by_cases hpos : t.nonce > 0
  · by_cases hacc : t.account = a
    · subst hacc
      cases hl : alistLookup acc t.account with
      | none => simp [minNonceStep, hpos, hl, alistLookup_set_self, combineMin]
      | some m =>
          by_cases hlt : t.nonce < m
          · simp [minNonceStep, hpos, hl, hlt, alistLookup_set_self, combineMin]
            omega
          · simp [minNonceStep, hpos, hl, hlt, combineMin]
            omega
    · cases hl : alistLookup acc t.account with
      | none => simp [minNonceStep, hpos, hl, hacc, alistLookup_set_ne _ _ _ _ hacc]
      | some m =>
          by_cases hlt : t.nonce < m
          · simp [minNonceStep, hpos, hl, hlt, hacc, alistLookup_set_ne _ _ _ _ hacc]
          · simp [minNonceStep, hpos, hl, hlt, hacc]
  · simp [minNonceStep, hpos]

theorem lookup_fold_minNonce (entries : List TransactionAccountNonce)
    (acc : List (String × Nat)) (a : String) :
    alistLookup (entries.foldl minNonceStep acc) a =
      combineMin (alistLookup acc a) (posNonces entries a).min? := by
  induction entries generalizing acc with
  | nil => cases h : alistLookup acc a <;> simp [posNonces, combineMin, h]
  | cons t rest ih =>
      rw [List.foldl_cons, ih, lookup_minNonceStep]
      by_cases hc : t.account = a ∧ t.nonce > 0
      · rw [if_pos hc]
        have hfilter : posNonces (t :: rest) a = t.nonce :: posNonces rest a := by
          simp [posNonces, List.filter_cons, hc]
        rw [hfilter, min?_cons_eq, ← combineMin_assoc]
      · rw [if_neg hc]
        have hfilter : posNonces (t :: rest) a = posNonces rest a := by
          simp [posNonces, List.filter_cons, hc]
        rw [hfilter]

/-- The `minimumNonceByAccount` map holds, for each account, exactly the
minimum of the positive nonces submitted for it. -/
theorem lookup_minimumNonceByAccount (entries : List TransactionAccountNonce) (a : String) :
    alistLookup (minimumNonceByAccount entries) a = (posNonces entries a).min? := by
  rw [minimumNonceByAccount, lookup_fold_minNonce]
  rfl

/-- Keys of the association list are pairwise distinct. -/
def distinctKeys (l : List (String × Nat)) : Prop :=
  l.Pairwise (fun p q => p.1 ≠ q.1)

theorem mem_of_alistLookup {l : List (String × Nat)} {a : String} {n : Nat}
    (h : alistLookup l a = some n) : (a, n) ∈ l := by
  induction l with
  | nil => simp [alistLookup] at h
  | cons p rest ih =>
      obtain ⟨b, w⟩ := p
      by_cases hb : b = a
      · subst hb
        simp [alistLookup] at h
        simp [h]
      · simp [alistLookup, hb] at h
        exact List.mem_cons_of_mem _ (ih h)

theorem alistLookup_of_mem {l : List (String × Nat)} {a : String} {n : Nat}
    (hd : distinctKeys l) (h : (a, n) ∈ l) : alistLookup l a = some n := by
  induction l with
  | nil => simp at h
  | cons p rest ih =>
      obtain ⟨b, w⟩ := p
      rcases List.mem_cons.mp h with heq | hmem
      · cases heq
        simp [alistLookup]
      · have hd' := (List.pairwise_cons.mp hd)
        have hb : b ≠ a := by
          have := hd'.1 (a, n) hmem
          simpa using this
        simp [alistLookup, hb]
        exact ih hd'.2 hmem

theorem mem_alistSet {l : List (String × Nat)} {k : String} {v : Nat} {q : String × Nat}
    (h : q ∈ alistSet l k v) : q.1 = k ∨ q ∈ l := by
  induction l with
  | nil =>
      simp [alistSet] at h
      subst h
      left; rfl
  | cons p rest ih =>
      obtain ⟨b, w⟩ := p
      by_cases hb : b = k
      · subst hb
        simp [alistSet] at h
        rcases h with h | h
        · subst h; left; rfl
        · right; exact List.mem_cons_of_mem _ h
      · simp [alistSet, hb] at h
        rcases h with h | h
        · subst h; right; simp
        · rcases ih h with h' | h'
          · left; exact h'
          · right; exact List.mem_cons_of_mem _ h'

theorem distinctKeys_alistSet {l : List (String × Nat)} (k : String) (v : Nat)
    (h : distinctKeys l) : distinctKeys (alistSet l k v) := by
  induction l with
  | nil => simp [alistSet, distinctKeys]
  | cons p rest ih =>
      obtain ⟨b, w⟩ := p
      have hp := List.pairwise_cons.mp h
      by_cases hb : b = k
      · subst hb
        unfold distinctKeys alistSet
        rw [if_pos rfl]
        exact List.pairwise_cons.mpr ⟨fun q hq => hp.1 q hq, hp.2⟩
      · unfold distinctKeys alistSet
        rw [if_neg hb]
        refine List.pairwise_cons.mpr ⟨?_, ih hp.2⟩
        intro q hq
        rcases mem_alistSet hq with h' | h'
        · rw [h']
          exact hb
        · exact hp.1 q h'

theorem distinctKeys_minNonceStep (acc : List (String × Nat))
    (t : TransactionAccountNonce) (h : distinctKeys acc) :
    distinctKeys (minNonceStep acc t) := by
  unfold minNonceStep
  split
  · split
    · exact distinctKeys_alistSet _ _ h
    · split
      · exact distinctKeys_alistSet _ _ h
      · exact h
  · exact h

theorem distinctKeys_minimumNonceByAccount (entries : List TransactionAccountNonce) :
    distinctKeys (minimumNonceByAccount entries) := by
  rw [minimumNonceByAccount]
  have h : ∀ acc, distinctKeys acc → distinctKeys (entries.foldl minNonceStep acc) := by
    induction entries with
    | nil => intro acc h; exact h
    | cons t rest ih =>
        intro acc h
        rw [List.foldl_cons]
        exact ih _ (distinctKeys_minNonceStep acc t h)
  exact h [] (by simp [distinctKeys])

/-- C2: on a block before the target, the watcher resolves
`AccountNonceTooHigh` exactly when some account's minimum positive submitted
nonce is below its current on-chain transaction count, and stays pending
otherwise; a bundle whose entries all carry nonce 0 never triggers the
check. -/
theorem claim_C2_nonceCheck (entries : List TransactionAccountNonce)
    (targetBlockNumber : Nat) (getTransactionCount : String → Nat)
    (getBlock : Nat → Option (List String)) (b : Nat) (hb : b < targetBlockNumber) :
    (handlerStep entries targetBlockNumber getTransactionCount getBlock b =
        .resolved .AccountNonceTooHigh ↔
      ∃ a n, (posNonces entries a).min? = some n ∧ n < getTransactionCount a) ∧
    (handlerStep entries targetBlockNumber getTransactionCount getBlock b = .pending ↔
      ¬ ∃ a n, (posNonces entries a).min? = some n ∧ n < getTransactionCount a) ∧
    ((∀ t ∈ entries, t.nonce = 0) →
      handlerStep entries targetBlockNumber getTransactionCount getBlock b = .pending) := by
  have hkey : ∀ a, alistLookup (minimumNonceByAccount entries) a = (posNonces entries a).min? :=
    lookup_minimumNonceByAccount entries
  have hdk := distinctKeys_minimumNonceByAccount entries
  have hmain :
      (minimumNonceByAccount entries).all
          (fun p => decide (getTransactionCount p.1 ≤ p.2)) = false ↔
        ∃ a n, (posNonces entries a).min? = some n ∧ n < getTransactionCount a := by
    constructor
    · intro hall
      have hne : ¬ ((minimumNonceByAccount entries).all
          (fun p => decide (getTransactionCount p.1 ≤ p.2)) = true) := by
        rw [hall]
        simp
      rw [List.all_eq_true] at hne
      push_neg at hne
      obtain ⟨p, hp, hfalse⟩ := hne
      refine ⟨p.1, p.2, ?_, ?_⟩
      · rw [← hkey]
        exact alistLookup_of_mem hdk hp
      · simpa using hfalse
    · rintro ⟨a, n, hmin, hlt⟩
      have hmem : (a, n) ∈ minimumNonceByAccount entries :=
        mem_of_alistLookup ((hkey a).symm ▸ hmin)
      cases hall : (minimumNonceByAccount entries).all
          (fun p => decide (getTransactionCount p.1 ≤ p.2)) with
      | false => rfl
      | true =>
          have := List.all_eq_true.mp hall _ hmem
          simp at this
          omega
  rw [handlerStep, if_pos hb]
  by_cases hQ : ∃ a n, (posNonces entries a).min? = some n ∧ n < getTransactionCount a
  · have hf := hmain.mpr hQ
    refine ⟨?_, ?_, ?_⟩
    · simp [hf, hQ]
    · simp [hf, hQ]
    · intro hzero
      exfalso
      obtain ⟨a, n, hmin, _⟩ := hQ
      have hempty : posNonces entries a = [] := by
        simp only [posNonces, List.map_eq_nil_iff, List.filter_eq_nil_iff]
        intro t ht
        simp [hzero t ht]
      rw [hempty, List.min?_nil] at hmin
      exact Option.noConfusion hmin
  · have ht : (minimumNonceByAccount entries).all
        (fun p => decide (getTransactionCount p.1 ≤ p.2)) = true := by
      cases hall : (minimumNonceByAccount entries).all
          (fun p => decide (getTransactionCount p.1 ≤ p.2)) with
      | false => exact absurd (hmain.mp hall) hQ
      | true => rfl
    refine ⟨?_, ?_, ?_⟩
    · simp [ht, hQ]
    · simp [ht, hQ]
    · intro _
      simp [ht]

/-- C2 witness: at block 7 before target 10, a single entry with nonce 5
for account `0xa` whose on-chain count is already 6 resolves
`AccountNonceTooHigh`. -/
theorem claim_C2_witness :
    handlerStep [⟨"h1", "s1", "0xa", 5⟩] 10 (fun _ => 6) (fun _ => some []) 7 =
      .resolved .AccountNonceTooHigh := by
  have h := (claim_C2_nonceCheck [⟨"h1", "s1", "0xa", 5⟩] 10 (fun _ => 6) (fun _ => some [])
    7 (by decide)).1
  exact h.mpr ⟨"0xa", 5, by decide, by decide⟩

/-! ## Claim C3: listener/timer teardown of `wait` -/

/-- Invariant of a reachable wait state: before `done` nothing is settled,
the listener is attached and no removal has happened; once `done`, the
promise is settled, the listener is detached, exactly one removal has
happened and the timer is dead. -/
def WaitInv (s : WaitState) : Prop :=
  (s.done = false → s.outcome = none ∧ s.listenerOn = true ∧ s.removeCalls = 0) ∧
  (s.done = true →
    s.outcome.isSome = true ∧ s.listenerOn = false ∧ s.removeCalls = 1 ∧ s.timerOn = false)

theorem waitInv_init (timeout : Nat) : WaitInv (initWaitState timeout) := by
  constructor <;> simp [initWaitState]

theorem waitInv_step (cfg : WaitConfig) (s : WaitState) (e : WaitEvent) (h : WaitInv s) :
    WaitInv (stepEvent cfg s e) := by
  obtain ⟨hpre, hpost⟩ := h
  cases e with
  | block b =>
      cases hl : s.listenerOn with
      | false => simpa [stepEvent, hl] using ⟨hpre, hpost⟩
      | true =>
          cases hdone : s.done with
          | true => exact absurd hl (by simp [(hpost hdone).2.1])
          | false =>
              obtain ⟨houtcome, -, hrm⟩ := hpre hdone
              cases hh : handlerStep cfg.transactionAccountNonces cfg.targetBlockNumber
                  cfg.getTransactionCount cfg.getBlock b with
              | pending => simpa [stepEvent, hl, hh] using ⟨hpre, hpost⟩
              | getBlockFault => simpa [stepEvent, hl, hh] using ⟨hpre, hpost⟩
              | resolved r =>
                  constructor <;>
                    simp [stepEvent, hl, hh, settle, houtcome, hdone, hrm, WaitInv]
  | timeoutFires =>
      cases htimer : s.timerOn with
      | false => simpa [stepEvent, htimer] using ⟨hpre, hpost⟩
      | true =>
          cases hdone : s.done with
          | true => exact absurd htimer (by simp [(hpost hdone).2.2.2])
          | false =>
              obtain ⟨houtcome, -, hrm⟩ := hpre hdone
              constructor <;> simp [stepEvent, htimer, settle, houtcome, hdone, hrm]

theorem waitInv_runWait (cfg : WaitConfig) (timeout : Nat) (events : List WaitEvent) :
    WaitInv (runWait cfg timeout events) := by
  rw [runWait]
  suffices h : ∀ s, WaitInv s → WaitInv (events.foldl (stepEvent cfg) s) from
    h _ (waitInv_init timeout)
  induction events with
  | nil => intro s hs; exact hs
  | cons e es ih =>
      intro s hs
      rw [List.foldl_cons]
      exact ih _ (waitInv_step cfg s e hs)

/-- C3: over any sequence of delivered block/timeout events, the listener is
removed exactly once when the wait settles (and never before), a settled
wait absorbs every further event unchanged (a second resolution attempt is a
no-op), and when the timeout fires on a live wait the timer and listener are
torn down in that very step and the wait rejects with the timeout fault. -/
theorem claim_C3_teardown (cfg : WaitConfig) (timeout : Nat) (events : List WaitEvent) :
    ((runWait cfg timeout events).outcome.isSome = true →
      (runWait cfg timeout events).removeCalls = 1 ∧
      (runWait cfg timeout events).listenerOn = false) ∧
    ((runWait cfg timeout events).outcome = none →
      (runWait cfg timeout events).removeCalls = 0) ∧
    ((runWait cfg timeout events).done = true →
      ∀ e, stepEvent cfg (runWait cfg timeout events) e = runWait cfg timeout events) ∧
    ((runWait cfg timeout events).timerOn = true →
      (runWait cfg timeout events).done = false →
      (stepEvent cfg (runWait cfg timeout events) .timeoutFires).timerOn = false ∧
      (stepEvent cfg (runWait cfg timeout events) .timeoutFires).listenerOn = false ∧
      (stepEvent cfg (runWait cfg timeout events) .timeoutFires).outcome = some .timedOut ∧
      (stepEvent cfg (runWait cfg timeout events) .timeoutFires).removeCalls = 1) := by
  obtain ⟨hpre, hpost⟩ := waitInv_runWait cfg timeout events
  refine ⟨?_, ?_, ?_, ?_⟩
  · intro hsome
    cases hdone : (runWait cfg timeout events).done with
    | false => exact absurd hsome (by simp [(hpre hdone).1])
    | true => exact ⟨(hpost hdone).2.2.1, (hpost hdone).2.1⟩
  · intro hnone
    cases hdone : (runWait cfg timeout events).done with
    | false => exact (hpre hdone).2.2
    | true =>
        have hx := (hpost hdone).1
        rw [hnone] at hx
        simp at hx
  · intro hdone e
    obtain ⟨-, hlis, -, htim⟩ := hpost hdone
    cases e <;> simp [stepEvent, hlis, htim]
  · intro htimer hdone
    obtain ⟨houtcome, -, hrm⟩ := hpre hdone
    refine ⟨?_, ?_, ?_, ?_⟩ <;> simp [stepEvent, htimer, hdone, settle, houtcome, hrm]

/-- C3 witness: a wait that sees its target block settles with the listener
removed exactly once. -/
theorem claim_C3_witness :
    (runWait ⟨[⟨"h1", "s1", "0xa", 5⟩], 10, fun _ => 0, fun _ => some []⟩ 1000
        [.block 10, .block 11]).removeCalls = 1 ∧
    (runWait ⟨[⟨"h1", "s1", "0xa", 5⟩], 10, fun _ => 0, fun _ => some []⟩ 1000
        [.block 10, .block 11]).listenerOn = false :=
  (claim_C3_teardown ⟨[⟨"h1", "s1", "0xa", 5⟩], 10, fun _ => 0, fun _ => some []⟩ 1000
    [.block 10, .block 11]).1 rfl

/-! ## Claim C6: `signBundle` nonce assignment -/

/-- Positional relation between an input bundle item and its produced entry:
a raw item's string is passed through unchanged. -/
def matchesItem : BundleItem → SignedEntry → Prop
  | .raw s, e => e.signedTransaction = s
  | .tx _ _, _ => True

/-- C6: `signBundle` assigns nonces through the per-call map — a decodable
raw item pins `nextNonce[from] = nonce + 1` and is passed through unchanged
(an undecodable one fails the whole call); an unsigned item without an
explicit nonce takes the map entry if its signer's account was seen earlier,
else the account's on-chain transaction count, and the map entry becomes the
used nonce plus one; the output is positionally aligned with the input. -/
theorem claim_C6_signBundle (parseTransaction : String → Option ParsedTransaction)
    (getTransactionCount : String → Nat) :
    (∀ s rest nonces, parseTransaction s = none →
      signBundleGo parseTransaction getTransactionCount (.raw s :: rest) nonces =
        .error "Could not decode signed transaction") ∧
    (∀ s rest nonces td, parseTransaction s = some td → td.fromAddr = none →
      signBundleGo parseTransaction getTransactionCount (.raw s :: rest) nonces =
        .error "Could not decode signed transaction") ∧
    (∀ s rest nonces td a, parseTransaction s = some td → td.fromAddr = some a →
      signBundleGo parseTransaction getTransactionCount (.raw s :: rest) nonces =
        (signBundleGo parseTransaction getTransactionCount rest
            (alistSet nonces a (td.nonce + 1))).map (⟨s, a, td.nonce⟩ :: ·)) ∧
    (∀ txn (sg : SignerModel) rest nonces m, txn.nonce = .undefinedNonce →
      alistLookup nonces sg.address = some m →
      signBundleGo parseTransaction getTransactionCount (.tx txn sg :: rest) nonces =
        (signBundleGo parseTransaction getTransactionCount rest
            (alistSet nonces sg.address (m + 1))).map
          (⟨sg.signTransaction (prepareTx txn sg m), sg.address, m⟩ :: ·)) ∧
    (∀ txn (sg : SignerModel) rest nonces, txn.nonce = .undefinedNonce →
      alistLookup nonces sg.address = none →
      signBundleGo parseTransaction getTransactionCount (.tx txn sg :: rest) nonces =
        (signBundleGo parseTransaction getTransactionCount rest
            (alistSet nonces sg.address (getTransactionCount sg.address + 1))).map
          (⟨sg.signTransaction (prepareTx txn sg (getTransactionCount sg.address)),
            sg.address, getTransactionCount sg.address⟩ :: ·)) ∧
    (∀ items nonces entries,
      signBundleGo parseTransaction getTransactionCount items nonces = .ok entries →
      List.Forall₂ matchesItem items entries) := by
  refine ⟨?_, ?_, ?_, ?_, ?_, ?_⟩
  · intro s rest nonces hparse
    simp [signBundleGo, hparse]
  · intro s rest nonces td hparse hfrom
    simp [signBundleGo, hparse, hfrom]
  · intro s rest nonces td a hparse hfrom
    simp [signBundleGo, hparse, hfrom]
  · intro txn sg rest nonces m hu hlook
    simp [signBundleGo, hu, isStringNonce, hlook]
  · intro txn sg rest nonces hu hlook
    simp [signBundleGo, hu, isStringNonce, hlook]
  · intro items
    induction items with
    | nil =>
        intro nonces entries h
        simp [signBundleGo] at h
        simp [← h]
    | cons item rest ih =>
        intro nonces entries h
        cases item with
        | raw s =>
            cases hparse : parseTransaction s with
            | none => simp [signBundleGo, hparse] at h
            | some td =>
                cases hfrom : td.fromAddr with
                | none => simp [signBundleGo, hparse, hfrom] at h
                | some a =>
                    simp only [signBundleGo, hparse, hfrom] at h
                    cases hrest : signBundleGo parseTransaction getTransactionCount rest
                        (alistSet nonces a (td.nonce + 1)) with
                    | error e => rw [hrest] at h; exact Except.noConfusion h
                    | ok tail =>
                        rw [hrest] at h
                        simp only [Except.map, Except.ok.injEq] at h
                        subst h
                        exact List.Forall₂.cons rfl (ih _ _ hrest)
        | tx txn sg =>
            cases hstr : isStringNonce txn.nonce with
            | true => simp [signBundleGo, hstr] at h
            | false =>
                simp only [signBundleGo, hstr, Bool.false_eq_true, if_false] at h
                cases hrest : signBundleGo parseTransaction getTransactionCount rest
                    (alistSet nonces sg.address
                      ((match txn.nonce with
                        | .num n => n
                        | _ => (alistLookup nonces sg.address).getD
                            (getTransactionCount sg.address)) + 1)) with
                | error e => rw [hrest] at h; exact Except.noConfusion h
                | ok tail =>
                    rw [hrest] at h
                    simp only [Except.map, Except.ok.injEq] at h
                    subst h
                    exact List.Forall₂.cons trivial (ih _ _ hrest)

/-- C6 witness: two unsigned items for a fresh account are assigned the
on-chain count and then the advanced map entry. -/
theorem claim_C6_witness :
    signBundleGo (fun _ => none) (fun _ => 5) [.tx {} (toySigner "0xa")] [] =
      (signBundleGo (fun _ => none) (fun _ => 5) [] (alistSet [] "0xa" 6)).map
        (⟨(toySigner "0xa").signTransaction (prepareTx {} (toySigner "0xa") 5), "0xa", 5⟩ :: ·) :=
  (claim_C6_signBundle (fun _ => none) (fun _ => 5)).2.2.2.2.1 {} (toySigner "0xa") [] []
    rfl rfl

/-! ## Claim C10: explicit `null` nonce is not written back -/

/-- C10: for an unsigned item whose `nonce` field is explicitly `null`,
`signBundle` still resolves a nonce from the map (or the on-chain count) and
advances the map to that nonce plus one, but does not write the nonce back:
the transaction is signed with its `nonce` field still `null` — unlike the
`undefined` case, where the resolved nonce is written back before signing. -/
theorem claim_C10_nullNonce (parseTransaction : String → Option ParsedTransaction)
    (getTransactionCount : String → Nat) (txn : TransactionIntent) (sg : SignerModel)
    (rest : List BundleItem) (nonces : List (String × Nat)) (hnull : txn.nonce = .null) :
    (prepareTx txn sg
        ((alistLookup nonces sg.address).getD (getTransactionCount sg.address))).nonce =
      .null ∧
    signBundleGo parseTransaction getTransactionCount (.tx txn sg :: rest) nonces =
      (signBundleGo parseTransaction getTransactionCount rest
          (alistSet nonces sg.address
            ((alistLookup nonces sg.address).getD (getTransactionCount sg.address) + 1))).map
        (⟨sg.signTransaction (prepareTx txn sg
            ((alistLookup nonces sg.address).getD (getTransactionCount sg.address))),
          sg.address,
          (alistLookup nonces sg.address).getD (getTransactionCount sg.address)⟩ :: ·) ∧
    (∀ txn' : TransactionIntent, txn'.nonce = .undefinedNonce → ∀ n,
      (prepareTx txn' sg n).nonce = .num n) := by
  refine ⟨?_, ?_, ?_⟩
  · simp only [prepareTx, hnull]
    split_ifs <;> simp_all
  · simp [signBundleGo, hnull, isStringNonce]
  · intro txn' hu n
    simp only [prepareTx, hu]
    split_ifs <;> simp_all

/-- C10 witness: with an empty map and on-chain count 5, a `null`-nonce
transaction is signed with nonce field still `null` while the map advances
to 6. -/
theorem claim_C10_witness :
    (prepareTx { nonce := .null } (toySigner "0xa") 5).nonce = .null ∧
    signBundleGo (fun _ => none) (fun _ => 5) [.tx { nonce := .null } (toySigner "0xa")] [] =
      (signBundleGo (fun _ => none) (fun _ => 5) [] (alistSet [] "0xa" 6)).map
        (⟨(toySigner "0xa").signTransaction (prepareTx { nonce := .null } (toySigner "0xa") 5),
          "0xa", 5⟩ :: ·) := by
  have h := claim_C10_nullNonce (fun _ => none) (fun _ => 5) { nonce := .null }
    (toySigner "0xa") [] [] rfl
  exact ⟨h.1, h.2.1⟩

/-! ## Claim C7: per-account nonce monotonicity of `signBundle` -/

/-- C7 counterexample: a bundle with NO pre-signed items — two unsigned
items for the same account `0xa`, the second with an explicitly set nonce
`0` — produces entries whose nonces are `5` then `0`: the nonce at the later
index is not greater, and no pre-signed item pinned anything. -/
theorem claim_C7_counterexample :
    signBundleNonces (fun _ => none) (fun _ => 5)
        [.tx {} (toySigner "0xa"), .tx { nonce := .num 0 } (toySigner "0xa")] =
      .ok [("0xa", 5), ("0xa", 0)] ∧ ¬ (5 : Nat) < 0 :=
  ⟨rfl, by omega⟩

/-- No item of the bundle can pin account `a`'s nonce: every decodable raw
item is from another account, and every unsigned item for `a` leaves its
nonce field `undefined`. -/
def autoOnlyFor (parseTransaction : String → Option ParsedTransaction) (a : String) :
    BundleItem → Prop
  | .raw s => ∀ td, parseTransaction s = some td → td.fromAddr ≠ some a
  | .tx txn sg => sg.address = a → txn.nonce = .undefinedNonce

/-- For an unpinned account the signer hands out consecutive nonces: the
`a`-entries of the output carry exactly `start, start + 1, …` where `start`
is the map entry on entry (or the on-chain count). -/
theorem signBundleGo_auto_range (parseTransaction : String → Option ParsedTransaction)
    (getTransactionCount : String → Nat) (a : String) :
    ∀ (items : List BundleItem) (nonces : List (String × Nat)) (entries : List SignedEntry),
      signBundleGo parseTransaction getTransactionCount items nonces = .ok entries →
      (∀ item ∈ items, autoOnlyFor parseTransaction a item) →
      (entries.filter (fun e => e.account = a)).map (·.nonce) =
        List.range' ((alistLookup nonces a).getD (getTransactionCount a))
          ((entries.filter (fun e => e.account = a)).length) := by
  intro items
  induction items with
  | nil =>
      intro nonces entries h _
      simp only [signBundleGo, Except.ok.injEq] at h
      subst h
      rfl
  | cons item rest ih =>
      intro nonces entries h ha
      have harest : ∀ item ∈ rest, autoOnlyFor parseTransaction a item :=
        fun i hi => ha i (List.mem_cons_of_mem _ hi)
      cases item with
      | raw s =>
          cases hparse : parseTransaction s with
          | none => simp [signBundleGo, hparse] at h
          | some td =>
              cases hfrom : td.fromAddr with
              | none => simp [signBundleGo, hparse, hfrom] at h
              | some a' =>
                  have hne : a' ≠ a := by
                    intro heq
                    exact (ha _ (List.mem_cons_self _ _) td hparse) (heq ▸ hfrom)
                  simp only [signBundleGo, hparse, hfrom] at h
                  cases hrest : signBundleGo parseTransaction getTransactionCount rest
                      (alistSet nonces a' (td.nonce + 1)) with
                  | error e => rw [hrest] at h; exact Except.noConfusion h
                  | ok tail =>
                      rw [hrest] at h
                      simp only [Except.map, Except.ok.injEq] at h
                      subst h
                      have htail := ih _ _ hrest harest
                      rw [alistLookup_set_ne _ _ _ _ hne] at htail
                      simpa [List.filter_cons, hne] using htail
      | tx txn sg =>
          by_cases hsga : sg.address = a
          · have hu : txn.nonce = .undefinedNonce := ha _ (List.mem_cons_self _ _) hsga
            simp only [signBundleGo, hu, isStringNonce, Bool.false_eq_true, if_false] at h
            cases hrest : signBundleGo parseTransaction getTransactionCount rest
                (alistSet nonces sg.address
                  ((alistLookup nonces sg.address).getD (getTransactionCount sg.address) + 1)) with
            | error e => rw [hrest] at h; exact Except.noConfusion h
            | ok tail =>
                rw [hrest] at h
                simp only [Except.map, Except.ok.injEq] at h
                subst h
                have htail := ih _ _ hrest harest
                rw [hsga, alistLookup_set_self] at htail
                simp only [Option.getD_some] at htail
                simp only [List.filter_cons, hsga, decide_True, eq_self_iff_true,
                  if_true, List.map_cons, List.length_cons, htail]
                rfl
          · cases hstr : isStringNonce txn.nonce with
            | true => simp [signBundleGo, hstr] at h
            | false =>
                simp only [signBundleGo, hstr, Bool.false_eq_true, if_false] at h
                cases hrest : signBundleGo parseTransaction getTransactionCount rest
                    (alistSet nonces sg.address
                      ((match txn.nonce with
                        | .num n => n
                        | _ => (alistLookup nonces sg.address).getD
                            (getTransactionCount sg.address)) + 1)) with
                | error e => rw [hrest] at h; exact Except.noConfusion h
                | ok tail =>
                    rw [hrest] at h
                    simp only [Except.map, Except.ok.injEq] at h
                    subst h
                    have htail := ih _ _ hrest harest
                    rw [alistLookup_set_ne _ _ _ _ hsga] at htail
                    simpa [List.filter_cons, hsga] using htail

/-- C7 (amended): the nonces of a `signBundle` output strictly increase with
array index for any two entries sharing an account, provided that account's
nonce is never pinned — neither by a pre-signed item from it nor by an
unsigned item with an explicitly set (non-`undefined`) nonce field.  (The
counterexample shows pinning by an explicit nonce breaks the original
unconditional statement even with no pre-signed item present.) -/
theorem claim_C7_nonceMonotone (parseTransaction : String → Option ParsedTransaction)
    (getTransactionCount : String → Nat) (items : List BundleItem)
    (entries : List SignedEntry) (a : String)
    (h : signBundleGo parseTransaction getTransactionCount items [] = .ok entries)
    (ha : ∀ item ∈ items, autoOnlyFor parseTransaction a item) :
    ((entries.filter (fun e => e.account = a)).map (·.nonce)).Pairwise (· < ·) := by
  rw [signBundleGo_auto_range parseTransaction getTransactionCount a items [] entries h ha]
  exact List.pairwise_lt_range' _ _

/-- C7 witness: two auto-nonced items for `0xa` with on-chain count 5 yield
nonces `[5, 6]`, strictly increasing. -/
theorem claim_C7_witness :
    ((([⟨"signed:0xa:5", "0xa", 5⟩, ⟨"signed:0xa:6", "0xa", 6⟩] : List SignedEntry).filter
        (fun e => e.account = "0xa")).map (·.nonce)).Pairwise (· < ·) := by
  refine claim_C7_nonceMonotone (fun _ => none) (fun _ => 5)
    [.tx {} (toySigner "0xa"), .tx {} (toySigner "0xa")] _ "0xa" rfl ?_
  intro item hitem
  rcases List.mem_cons.mp hitem with hh | hh
  · subst hh
    intro _
    rfl
  · rcases List.mem_cons.mp hh with hh' | hh'
    · subst hh'
      intro _
      rfl
    · simp at hh'

/-- The conflict type each divergence kind is classified as. -/
def divergenceType : DivergenceKind → FlashbotsBundleConflictType
  | .errorKind => .Error
  | .coinbaseKind => .CoinbasePayment
  | .gasKind => .GasUsed

/-- The replay loop as a monadic fold: run the per-bundle steps over the
given bundle indices, threading the accumulated prior-transaction prefix. -/
def conflictSteps (simulate : List String → SimulationResponse)
    (initialSimulation : SimulationSuccess) (targetTxs : List String)
    (getRawTx : String → Option String) (bundleTransactions : List BlocksApiTx)
    (ks : List Nat) (prior : List String) : Except ConflictOutcome (List String) :=
  ks.foldlM
    (fun p k => conflictStep simulate initialSimulation targetTxs getRawTx bundleTransactions k p)
    prior

theorem conflictLoop_eq_steps (simulate : List String → SimulationResponse)
    (initial : SimulationSuccess) (targetTxs : List String)
    (getRawTx : String → Option String) (bts : List BlocksApiTx) :
    ∀ (ks : List Nat) (prior : List String),
      conflictLoop simulate initial targetTxs getRawTx bts ks prior =
        (match conflictSteps simulate initial targetTxs getRawTx bts ks prior with
          | .error o => o
          | .ok _ => .record .NoConflict initial []) := by
  intro ks
  induction ks with
  | nil => intro prior; rfl
  | cons k rest ih =>
      intro prior
      have hunfold : conflictLoop simulate initial targetTxs getRawTx bts (k :: rest) prior =
          (match conflictStep simulate initial targetTxs getRawTx bts k prior with
            | .error o => o
            | .ok p => conflictLoop simulate initial targetTxs getRawTx bts rest p) := rfl
      have hsteps : conflictSteps simulate initial targetTxs getRawTx bts (k :: rest) prior =
          (match conflictStep simulate initial targetTxs getRawTx bts k prior with
            | .error o => .error o
            | .ok p => conflictSteps simulate initial targetTxs getRawTx bts rest p) := by
        rw [conflictSteps, List.foldlM_cons]
        cases conflictStep simulate initial targetTxs getRawTx bts k prior <;> rfl
      rw [hunfold, hsteps]
      cases conflictStep simulate initial targetTxs getRawTx bts k prior with
      | error o => rfl
      | ok p => exact ih p

theorem conflictSteps_append (simulate : List String → SimulationResponse)
    (initial : SimulationSuccess) (targetTxs : List String)
    (getRawTx : String → Option String) (bts : List BlocksApiTx)
    (ks1 ks2 : List Nat) (prior : List String) :
    conflictSteps simulate initial targetTxs getRawTx bts (ks1 ++ ks2) prior =
      (conflictSteps simulate initial targetTxs getRawTx bts ks1 prior).bind
        (fun p => conflictSteps simulate initial targetTxs getRawTx bts ks2 p) := by
  rw [conflictSteps, conflictSteps, List.foldlM_append]
  rfl

/-- If the first `k` bundles replay cleanly (accumulating `prior`) and the
step at bundle `k` terminates the diagnosis with outcome `o`, then running
the loop over any longer range also terminates with `o`: the first
divergence determines the classification. -/
theorem conflictSteps_first_error (simulate : List String → SimulationResponse)
    (initial : SimulationSuccess) (targetTxs : List String)
    (getRawTx : String → Option String) (bts : List BlocksApiTx)
    (n k : Nat) (prior : List String) (o : ConflictOutcome) (hk : k < n)
    (hok : conflictSteps simulate initial targetTxs getRawTx bts (List.range k) [] = .ok prior)
    (herr : conflictStep simulate initial targetTxs getRawTx bts k prior = .error o) :
    conflictSteps simulate initial targetTxs getRawTx bts (List.range n) [] = .error o := by
  have hsplit : List.range n = List.range (k + 1) ++ List.range' (k + 1) (n - (k + 1)) := by
    have hn : n = (n - (k + 1)) + (k + 1) := by omega
    rw [List.range_eq_range', List.range_eq_range']
    conv_lhs => rw [hn]
    rw [← List.range'_append 0 (k + 1) (n - (k + 1)) 1]
    norm_num
  rw [hsplit, conflictSteps_append, List.range_succ, conflictSteps_append, hok]
  simp only [Except.bind]
  rw [conflictSteps, List.foldlM_cons, herr]
  rfl

/-! ## Claim C5: diagnoser preconditions fail fast -/

/-- C5: when the blocks-data service has not yet indexed the target block,
or the target bundle alone at the top of the block errors or contains a
reverting transaction, `getConflictingBundleWithoutGasPricing` throws a
fault and never produces a conflict record. -/
theorem claim_C5_preconditions (simulate : List String → SimulationResponse)
    (blocksApi : BlocksApiResponse) (getRawTx : String → Option String)
    (targetTxs : List String) (tgt : Nat) :
    (blocksApi.latest_block_number ≤ tgt →
      getConflictingBundleWithoutGasPricing simulate blocksApi getRawTx targetTxs tgt =
        .fault "Blocks-api has not processed target block") ∧
    (∀ e, tgt < blocksApi.latest_block_number → simulate targetTxs = .err e →
      getConflictingBundleWithoutGasPricing simulate blocksApi getRawTx targetTxs tgt =
        .fault "Target bundle errors at top of block") ∧
    (∀ s, tgt < blocksApi.latest_block_number → simulate targetTxs = .ok s →
      (firstRevert s).isSome = true →
      getConflictingBundleWithoutGasPricing simulate blocksApi getRawTx targetTxs tgt =
        .fault "Target bundle errors at top of block") ∧
    (∀ conflictType initial conflictingBundle,
      (blocksApi.latest_block_number ≤ tgt ∨ (∃ e, simulate targetTxs = .err e) ∨
        (∃ s, simulate targetTxs = .ok s ∧ (firstRevert s).isSome = true)) →
      getConflictingBundleWithoutGasPricing simulate blocksApi getRawTx targetTxs tgt ≠
        .record conflictType initial conflictingBundle) := by
  refine ⟨?_, ?_, ?_, ?_⟩
  · intro hle
    simp [getConflictingBundleWithoutGasPricing, hle]
  · intro e hgt herr
    simp [getConflictingBundleWithoutGasPricing, Nat.not_le.mpr hgt, herr]
  · intro s hgt hok hrev
    simp [getConflictingBundleWithoutGasPricing, Nat.not_le.mpr hgt, hok, hrev]
  · rintro conflictType initial conflictingBundle (hle | ⟨e, herr⟩ | ⟨s, hok, hrev⟩)
    · simp [getConflictingBundleWithoutGasPricing, hle]
    · by_cases hgt : blocksApi.latest_block_number ≤ tgt
      · simp [getConflictingBundleWithoutGasPricing, hgt]
      · simp [getConflictingBundleWithoutGasPricing, hgt, herr]
    · by_cases hgt : blocksApi.latest_block_number ≤ tgt
      · simp [getConflictingBundleWithoutGasPricing, hgt]
      · simp [getConflictingBundleWithoutGasPricing, hgt, hok, hrev]

/-- C5 witness: a blocks API still at block 5 for target 7 throws the
blocks-api fault, which is not a conflict record. -/
theorem claim_C5_witness :
    getConflictingBundleWithoutGasPricing (fun _ => .ok ⟨[]⟩) ⟨5, []⟩ (fun _ => none) [] 7 =
      .fault "Blocks-api has not processed target block" :=
  (claim_C5_preconditions (fun _ => .ok ⟨[]⟩) ⟨5, []⟩ (fun _ => none) [] 7).1 (by decide)

/-! ## Claim C4: conflict classification order -/

/-- C4: with the preconditions passing, the diagnoser replays the block's
actual bundles in increasing bundle-index order, threading an accumulated
prefix of prior raw transactions, and returns the classification of the
first divergence: a nonce-too-low combined simulation is `NonceCollision`
against the current bundle; otherwise the target's slice of the combined
results is compared position by position against the solo simulation —
exactly one side erroring is `Error`, then a differing coinbase payment is
`CoinbasePayment`, then differing gas used is `GasUsed`; an empty blocks
list is `NoBundlesInBlock` with no replay; and a fully clean replay is
`NoConflict`. -/
theorem claim_C4_conflictClassification (simulate : List String → SimulationResponse)
    (blocksApi : BlocksApiResponse) (getRawTx : String → Option String)
    (targetTxs : List String) (tgt : Nat) (initial : SimulationSuccess)
    (hlatest : tgt < blocksApi.latest_block_number)
    (hsim : simulate targetTxs = .ok initial)
    (hrev : firstRevert initial = none) :
    (blocksApi.blocks.head? = none →
      getConflictingBundleWithoutGasPricing simulate blocksApi getRawTx targetTxs tgt =
        .record .NoBundlesInBlock initial []) ∧
    (∀ bd lastTx, blocksApi.blocks.head? = some bd →
      bd.transactions.getLast? = some lastTx →
      getConflictingBundleWithoutGasPricing simulate blocksApi getRawTx targetTxs tgt =
        (match conflictSteps simulate initial targetTxs getRawTx bd.transactions
            (List.range (lastTx.bundle_index + 1)) [] with
          | .error o => o
          | .ok _ => .record .NoConflict initial [])) ∧
    (∀ bts (k : Nat) prior raws e,
      fetchRaws getRawTx (bts.filter (fun bt => bt.bundle_index = k)) = some raws →
      simulate ((prior ++ raws) ++ targetTxs) = .err e →
      isNonceTooLow e.message = true →
      conflictStep simulate initial targetTxs getRawTx bts k prior =
        .error (.record .NonceCollision initial
          (bts.filter (fun bt => bt.bundle_index = k)))) ∧
    (∀ bts (k : Nat) prior raws sim d,
      fetchRaws getRawTx (bts.filter (fun bt => bt.bundle_index = k)) = some raws →
      simulate ((prior ++ raws) ++ targetTxs) = .ok sim →
      compareTargetSlice (takeLast targetTxs.length sim.results) initial.results = .div d →
      conflictStep simulate initial targetTxs getRawTx bts k prior =
        .error (.record (divergenceType d) initial
          (bts.filter (fun bt => bt.bundle_index = k)))) ∧
    (∀ bts (k : Nat) prior raws sim,
      fetchRaws getRawTx (bts.filter (fun bt => bt.bundle_index = k)) = some raws →
      simulate ((prior ++ raws) ++ targetTxs) = .ok sim →
      compareTargetSlice (takeLast targetTxs.length sim.results) initial.results = .clean →
      conflictStep simulate initial targetTxs getRawTx bts k prior = .ok (prior ++ raws)) ∧
    (∀ bts (n k : Nat) prior o, k < n →
      conflictSteps simulate initial targetTxs getRawTx bts (List.range k) [] = .ok prior →
      conflictStep simulate initial targetTxs getRawTx bts k prior = .error o →
      conflictSteps simulate initial targetTxs getRawTx bts (List.range n) [] = .error o) ∧
    (∀ t i : TxSimulation,
      (t.error.isSome ≠ i.error.isSome → compareTxPair t i = some .errorKind) ∧
      (t.error.isSome = true → i.error.isSome = true → compareTxPair t i = none) ∧
      (t.error = none → i.error = none → t.ethSentToCoinbase ≠ i.ethSentToCoinbase →
        compareTxPair t i = some .coinbaseKind) ∧
      (t.error = none → i.error = none → t.ethSentToCoinbase = i.ethSentToCoinbase →
        t.gasUsed ≠ i.gasUsed → compareTxPair t i = some .gasKind)) ∧
    (∀ (ts initRes : List TxSimulation) (j : Nat) t i d,
      (∀ j' t' i', j' < j → ts.get? j' = some t' → initRes.get? j' = some i' →
        compareTxPair t' i' = none) →
      ts.get? j = some t → initRes.get? j = some i → compareTxPair t i = some d →
      compareTargetSlice ts initRes = .div d) := by
  have hgt : ¬ blocksApi.latest_block_number ≤ tgt := Nat.not_le.mpr hlatest
  refine ⟨?_, ?_, ?_, ?_, ?_, ?_, ?_, ?_⟩
  · intro hhead
    simp [getConflictingBundleWithoutGasPricing, hgt, hsim, hrev, hhead]
  · intro bd lastTx hhead hlast
    simp only [getConflictingBundleWithoutGasPricing, if_neg hgt, hsim, hrev,
      Option.isSome_none, Bool.false_eq_true, if_false, hhead, hlast]
    exact conflictLoop_eq_steps simulate initial targetTxs getRawTx bd.transactions _ _
  · intro bts k prior raws e hraws herr hnonce
    rw [List.append_assoc] at herr
    simp [conflictStep, hraws, herr, hnonce]
  · intro bts k prior raws sim d hraws hok hcmp
    rw [List.append_assoc] at hok
    cases d <;> simp [conflictStep, hraws, hok, hcmp, divergenceType]
  · intro bts k prior raws sim hraws hok hcmp
    rw [List.append_assoc] at hok
    simp [conflictStep, hraws, hok, hcmp]
  · intro bts n k prior o hk hok herr
    exact conflictSteps_first_error simulate initial targetTxs getRawTx bts n k prior o hk
      hok herr
  · intro t i
    refine ⟨?_, ?_, ?_, ?_⟩
    · intro hne
      cases ht : t.error.isSome <;> cases hi : i.error.isSome <;>
        simp [compareTxPair, ht, hi] <;> simp [ht, hi] at hne
    · intro ht hi
      simp [compareTxPair, ht, hi]
    · intro ht hi hcb
      simp [compareTxPair, ht, hi, hcb]
    · intro ht hi hcb hgas
      simp [compareTxPair, ht, hi, hcb, hgas]
  · intro ts
    induction ts with
    | nil =>
        intro initRes j t i d _ hts
        simp at hts
    | cons t0 ts' ih =>
        intro initRes j t i d hfirst hts his hpair
        cases initRes with
        | nil => simp at his
        | cons i0 is' =>
            cases j with
            | zero =>
                simp only [List.get?] at hts his
                cases hts
                cases his
                simp [compareTargetSlice, hpair]
            | succ j' =>
                have h0 : compareTxPair t0 i0 = none :=
                  hfirst 0 t0 i0 (Nat.succ_pos j') rfl rfl
                simp only [List.get?] at hts his
                simp only [compareTargetSlice, h0]
                exact ih is' j' t i d
                  (fun j'' t'' i'' hj'' ht'' hi'' =>
                    hfirst (j'' + 1) t'' i'' (Nat.succ_lt_succ hj'') ht'' hi'')
                  hts his hpair

/-- Concrete simulation oracle for the C4 witness: the target bundle alone
simulates cleanly paying 100 to the coinbase; combined with the competing
bundle the payment drops to 50. -/
def simW : List String → SimulationResponse := fun txs =>
  if txs = ["t1"] then .ok ⟨[⟨21000, "100", none⟩]⟩
  else .ok ⟨[⟨30000, "0", none⟩, ⟨21000, "50", none⟩]⟩

/-- C4 witness: the single competing bundle changes the target's coinbase
payment, so the diagnosis classifies `CoinbasePayment` against it. -/
theorem claim_C4_witness :
    getConflictingBundleWithoutGasPricing simW ⟨10, [⟨[⟨"h1", 0⟩]⟩]⟩ (fun _ => some "r1")
        ["t1"] 5 =
      .record .CoinbasePayment ⟨[⟨21000, "100", none⟩]⟩ [⟨"h1", 0⟩] := by
  have h := (claim_C4_conflictClassification simW ⟨10, [⟨[⟨"h1", 0⟩]⟩]⟩ (fun _ => some "r1")
    ["t1"] 5 ⟨[⟨21000, "100", none⟩]⟩ (by decide) rfl rfl).2.1 ⟨[⟨"h1", 0⟩]⟩ ⟨"h1", 0⟩ rfl rfl
  rw [h]
  rfl
